import Mathlib

/-!
Verification of the BlenderScripts procedural-animation generators
(`GenerateAnimatedHaloRing.py`, `Halo3LoadingScreen.py`,
`GenerateParticleAssembly.py`) against their natural-language specification.

The scripts build keyframed animation curves for "particle" objects and
replicate one animated ring slice around a circle.  We shallowly embed the
curve data model and the per-object animation functions over exact rationals
(Python floats are idealised as `ℚ`; the integer truncations the scripts
perform agree between float and rational arithmetic at every configuration
appearing here).  Randomness (`random.randrange`) is modelled by an explicit
stream of natural-number draws threaded through each function; `randrange lo
hi` maps a draw into `[lo, hi)` exactly as the Python contract states, and a
fallible variant returns `none` when the range is empty (Python raises
`ValueError` there).  Rotation geometry is embedded over `ℝ` further below.
-/

/-- A 3-component vector, used both for locations (over `ℚ`) and for Euler
angle triples (over `ℝ`). -/
structure Vec3 (α : Type) where
  x : α
  y : α
  z : α
deriving DecidableEq

/-- Keyframe interpolation modes used by the scripts. -/
inductive Interp where
  | constant
  | linear
  | bezier
deriving DecidableEq

/-- One keyframe point of an f-curve: its `co` (frame, value) pair and the
two Bezier handles, each a (frame, value) pair, plus the interpolation mode.
Freshly added points (`keyframe_points.add`) start zeroed. -/
structure Keyframe where
  co : ℚ × ℚ
  handleLeft : ℚ × ℚ
  handleRight : ℚ × ℚ
  interpolation : Interp
deriving DecidableEq

/-- An animation f-curve: Blender identifies it by `data_path` (for example
`"location"` or a custom-property path) and `array_index`. -/
structure FCurve where
  dataPath : String
  arrayIndex : ℕ
  keyframePoints : List Keyframe
deriving DecidableEq

/-- The slice of Blender object state the animation functions touch: the
object's current location and the f-curves of its action. -/
structure ParticleObj where
  location : Vec3 ℚ
  curves : List FCurve
deriving DecidableEq

/-- A deterministic stream of raw random draws together with a cursor.  Each
`randrange` call consumes one draw; keeping the cursor explicit lets us state
that a function performs no draw at all. -/
structure RNG where
  s : ℕ → ℕ
  k : ℕ

/-- The model of Python `random.randrange(lo, hi)` for `lo < hi`: the next raw
draw is mapped into `[lo, hi)`. -/
def randrange (lo hi : ℤ) (r : RNG) : ℤ × RNG :=
  (lo + (r.s r.k : ℤ) % (hi - lo), ⟨r.s, r.k + 1⟩)

/-- Fallible `randrange`: Python raises `ValueError` when the range is empty
(`hi ≤ lo`); that failure is modelled as `none`. -/
def randrangeE (lo hi : ℤ) (r : RNG) : Option (ℤ × RNG) :=
  if hi ≤ lo then none else some (randrange lo hi r)

/-- Python `int(...)` applied to a rational: truncation toward zero. -/
def pyInt (q : ℚ) : ℤ :=
  if 0 ≤ q then ⌊q⌋ else ⌈q⌉

/-- Replace the element at index `i` by `f` of it (identity out of range). -/
def modifyIdx {α : Type} (i : ℕ) (f : α → α) : List α → List α
  | [] => []
  | a :: as =>
    match i with
    | 0 => f a :: as
    | n + 1 => a :: modifyIdx n f as

theorem modifyIdx_nil {α : Type} (i : ℕ) (f : α → α) :
    modifyIdx i f [] = [] := by cases i <;> rfl

theorem modifyIdx_zero {α : Type} (f : α → α) (a : α) (as : List α) :
    modifyIdx 0 f (a :: as) = f a :: as := rfl

theorem modifyIdx_one {α : Type} (f : α → α) (a b : α) (as : List α) :
    modifyIdx 1 f (a :: b :: as) = a :: f b :: as := rfl

theorem modifyIdx_two {α : Type} (f : α → α) (a b c : α) (as : List α) :
    modifyIdx 2 f (a :: b :: c :: as) = a :: b :: f c :: as := rfl

/-- Thread an `RNG` through a per-particle action over a slice, in order. -/
def mapWithRNG (f : ParticleObj → RNG → ParticleObj × RNG) :
    List ParticleObj → RNG → List ParticleObj × RNG
  | [], r => ([], r)
  | p :: ps, r =>
    let pr := f p r
    let rest := mapWithRNG f ps pr.2
    (pr.1 :: rest.1, rest.2)

/-- Thread an `RNG` through a fallible per-particle action over a slice. -/
def mapWithRNGE (f : ParticleObj → RNG → Option (ParticleObj × RNG)) :
    List ParticleObj → RNG → Option (List ParticleObj × RNG)
  | [], r => some ([], r)
  | p :: ps, r => do
    let pr ← f p r
    let rest ← mapWithRNGE f ps pr.2
    some (pr.1 :: rest.1, rest.2)

/-- The configuration constants of `GenerateAnimatedHaloRing.py` used by the
per-object animation functions (`RING_ANIMATION_START`,
`ASSEMBLY_ANIMATION_LENGTH`, `ASSEMBLY_TRAVEL_DISTANCE`,
`ASSEMBLY_START_VARIATION`, `ASSEMBLY_FLIGHT_VARIATION`,
`ASSEMBLY_RANDOM_VARIATION`). -/
structure AsmCfg where
  ringAnimStart : ℚ
  assemblyLen : ℚ
  travelDist : ℚ
  startVariation : ℚ
  flightVariation : ℚ
  randomVariation : ℤ

/-- The constants as configured at the top of `GenerateAnimatedHaloRing.py`. -/
def gahrCfg : AsmCfg :=
  { ringAnimStart := 120
    assemblyLen := 100
    travelDist := 30
    startVariation := 2
    flightVariation := 1
    randomVariation := 20 }

/-- The three location f-curves created by `insert_location_keyframe` when the
action has no curves yet (`fcurves.new(data_path="location", index=i)`). -/
def blankLocationCurves : List FCurve :=
  [⟨"location", 0, []⟩, ⟨"location", 1, []⟩, ⟨"location", 2, []⟩]

/-- `keyframe_points.add(1)` followed by setting the new point's `co`: the
point is appended at the end of the array, handles left at their zeroed
defaults.  No sorting happens. -/
def appendKeyframe (frame v : ℚ) (c : FCurve) : FCurve :=
  { c with keyframePoints :=
      c.keyframePoints ++ [⟨(frame, v), (0, 0), (0, 0), Interp.bezier⟩] }

/-- `insert_location_keyframe(object, frame, location)` from
`GenerateAnimatedHaloRing.py`: create the three location curves if the action
has none, then append one keyframe to each of `fcurves[0]`, `fcurves[1]`,
`fcurves[2]` (the x, y, z channels) with the given frame and location. -/
def insert_location_keyframe (p : ParticleObj) (frame : ℚ) (loc : Vec3 ℚ) :
    ParticleObj :=
  let cs := if p.curves.isEmpty then blankLocationCurves else p.curves
  let cs := modifyIdx 0 (appendKeyframe frame loc.x) cs
  let cs := modifyIdx 1 (appendKeyframe frame loc.y) cs
  let cs := modifyIdx 2 (appendKeyframe frame loc.z) cs
  { p with curves := cs }

theorem insert_location_keyframe_empty (loc0 : Vec3 ℚ) (frame : ℚ)
    (loc : Vec3 ℚ) :
    insert_location_keyframe ⟨loc0, []⟩ frame loc =
      ⟨loc0, [appendKeyframe frame loc.x ⟨"location", 0, []⟩,
              appendKeyframe frame loc.y ⟨"location", 1, []⟩,
              appendKeyframe frame loc.z ⟨"location", 2, []⟩]⟩ := rfl

theorem insert_location_keyframe_three (loc0 : Vec3 ℚ) (c0 c1 c2 : FCurve)
    (frame : ℚ) (loc : Vec3 ℚ) :
    insert_location_keyframe ⟨loc0, [c0, c1, c2]⟩ frame loc =
      ⟨loc0, [appendKeyframe frame loc.x c0, appendKeyframe frame loc.y c1,
              appendKeyframe frame loc.z c2]⟩ := rfl

/-- The start position computed in `create_basic_motion_keyframes` of
`GenerateAnimatedHaloRing.py`: the emitter-to-particle vector scaled by the
travel distance (the z component additionally divided by 20), translated back
by the emitter location, plus the jitter variation. -/
def gahrStartPos (cfg : AsmCfg) (emitter pLoc : Vec3 ℚ) (xv yv zv : ℚ) :
    Vec3 ℚ :=
  ⟨(pLoc.x - emitter.x) * cfg.travelDist + emitter.x + xv,
   (pLoc.y - emitter.y) * cfg.travelDist + emitter.y + yv,
   (pLoc.z - emitter.z) * cfg.travelDist / 20 + emitter.z + zv⟩

/-- The per-particle body of the second (`Set Start Location Keyframe`) loop
of `create_basic_motion_keyframes` in `GenerateAnimatedHaloRing.py`.  The
variations start at 0 and are drawn only when `random_range != 0`; the
`x_pos_sign`/`y_pos_sign`/`z_pos_sign` locals computed by the source are dead
(never read afterwards) and are omitted; the position-sign guard itself is
embedded separately as `posSignChecked` below. -/
def cbmkStart (cfg : AsmCfg) (emitter : Vec3 ℚ) (p : ParticleObj) (r : RNG) :
    ParticleObj × RNG :=
  let rr : ℤ := pyInt (cfg.startVariation * 30)
  if rr ≠ 0 then
    let xr := randrange (-rr) rr r
    let yr := randrange (-rr) rr xr.2
    let zr := randrange (-rr) rr yr.2
    let pos := gahrStartPos cfg emitter p.location
      ((xr.1 : ℚ) / 30) ((yr.1 : ℚ) / 30) ((zr.1 : ℚ) / 30)
    (insert_location_keyframe p cfg.ringAnimStart pos, zr.2)
  else
    (insert_location_keyframe p cfg.ringAnimStart
      (gahrStartPos cfg emitter p.location 0 0 0), r)

/-- `create_basic_motion_keyframes(slice, source_emitter)` from
`GenerateAnimatedHaloRing.py`: first loop inserts the final location keyframe
at `RING_ANIMATION_START + ASSEMBLY_ANIMATION_LENGTH` for every particle,
then the second loop inserts the jittered start keyframe at
`RING_ANIMATION_START`. -/
def create_basic_motion_keyframes (cfg : AsmCfg) (emitter : Vec3 ℚ)
    (slice : List ParticleObj) (r : RNG) : List ParticleObj × RNG :=
  let slice1 := slice.map fun p =>
    insert_location_keyframe p (cfg.ringAnimStart + cfg.assemblyLen) p.location
  mapWithRNG (cbmkStart cfg emitter) slice1 r

/-- The variation-frame computation shared by `randomize_flight_pattern` in
both scripts (`range = .2`): `int(start + ((1 - range)/2) * length)` up to
`int((start + length) - ((1 - range)/2) * length)`, exclusive. -/
def flightFrame (startF len : ℚ) (r : RNG) : ℤ × RNG :=
  let rangeStart := pyInt (startF + ((1 - 1/5) / 2) * len)
  let rangeEnd := pyInt ((startF + len) - ((1 - 1/5) / 2) * len)
  randrange rangeStart rangeEnd r

/-- The per-particle body of `randomize_flight_pattern` in
`GenerateAnimatedHaloRing.py` (with `PARTICLE_DRIFT_BEFORE_ASSEMBLY = True`,
the configured value, so the variation is applied to `particle.location`
rather than to the evaluated curves): draw the variation frame, draw the
jitter when `random_range != 0`, and insert one location keyframe there. -/
def rfpParticle (cfg : AsmCfg) (p : ParticleObj) (r : RNG) :
    ParticleObj × RNG :=
  let fr := flightFrame cfg.ringAnimStart cfg.assemblyLen r
  let rr : ℤ := pyInt (cfg.flightVariation * 30)
  if rr ≠ 0 then
    let half : ℤ := pyInt ((rr : ℚ) / 2)
    let xr := randrange (-half) half fr.2
    let yr := randrange (-half) half xr.2
    let zr := randrange (-rr) rr yr.2
    (insert_location_keyframe p ((fr.1 : ℚ))
      ⟨p.location.x + (xr.1 : ℚ) / 30,
       p.location.y + (yr.1 : ℚ) / 30,
       p.location.z + (zr.1 : ℚ) / 30⟩, zr.2)
  else
    (insert_location_keyframe p ((fr.1 : ℚ))
      ⟨p.location.x, p.location.y, p.location.z⟩, fr.2)

/-- `randomize_flight_pattern(slice)` from `GenerateAnimatedHaloRing.py`. -/
def randomize_flight_pattern (cfg : AsmCfg) (slice : List ParticleObj)
    (r : RNG) : List ParticleObj × RNG :=
  mapWithRNG (rfpParticle cfg) slice r

/-- The `data_path` filter of `randomize_keyframe_delay` (and of
`offset_animations`): the location channel and the three custom-property
material channels. -/
def delayedPath (s : String) : Bool :=
  s == "location" || s == "[\"Orb Visibility\"]" ||
    s == "[\"Cube Visibility\"]" || s == "[\"Cube Brightness\"]"

/-- Advance one keyframe point by `d` frames: `co.x`, `handle_left.x` and
`handle_right.x` each increase by `d`; values and interpolation unchanged. -/
def shiftKeyframe (d : ℚ) (kf : Keyframe) : Keyframe :=
  ⟨(kf.co.1 + d, kf.co.2), (kf.handleLeft.1 + d, kf.handleLeft.2),
   (kf.handleRight.1 + d, kf.handleRight.2), kf.interpolation⟩

/-- The delay drawn by `randomize_keyframe_delay` for one particle:
`0` unless `ASSEMBLY_RANDOM_VARIATION > 0`, else `randrange(0, variation)`. -/
def rkdDelay (variation : ℤ) (r : RNG) : ℤ :=
  if variation > 0 then (randrange 0 variation r).1 else 0

/-- The per-particle body of `randomize_keyframe_delay` in
`GenerateAnimatedHaloRing.py`: draw one delay, then advance every keyframe
point of every location or material curve of that particle by it. -/
def rkdParticle (variation : ℤ) (p : ParticleObj) (r : RNG) :
    ParticleObj × RNG :=
  let dr := if variation > 0 then randrange 0 variation r else ((0 : ℤ), r)
  ({ p with curves := p.curves.map fun c =>
      if delayedPath c.dataPath then
        { c with keyframePoints :=
            c.keyframePoints.map (shiftKeyframe ((dr.1 : ℚ))) }
      else c }, dr.2)

/-- `randomize_keyframe_delay(slice)` from `GenerateAnimatedHaloRing.py`. -/
def randomize_keyframe_delay (variation : ℤ) (slice : List ParticleObj)
    (r : RNG) : List ParticleObj × RNG :=
  mapWithRNG (rkdParticle variation) slice r

/-- The edit `remove_easing_on_start_frame` performs on one location curve:
`curve.keyframe_points[0].handle_right = curve.keyframe_points[0].co`.  Total
helper; the fallible wrapper below accounts for the `[0]` indexing. -/
def collapsedStart (c : FCurve) : FCurve :=
  match c.keyframePoints with
  | [] => c
  | k :: rest =>
    { c with keyframePoints := { k with handleRight := k.co } :: rest }

/-- One curve step of `remove_easing_on_start_frame`: location curves have
their first point's right handle collapsed onto the point; indexing `[0]` on
an empty curve raises in Python, modelled as `none`; other curves untouched. -/
def removeEasingCurve (c : FCurve) : Option FCurve :=
  if c.dataPath = "location" then
    match c.keyframePoints with
    | [] => none
    | _ :: _ => some (collapsedStart c)
  else some c

/-- `remove_easing_on_start_frame` from both generator scripts, restricted to
one particle (the slice version just loops this over the slice). -/
def remove_easing_on_start_frame (p : ParticleObj) : Option ParticleObj := do
  let cs ← p.curves.mapM removeEasingCurve
  some { p with curves := cs }

/-!  ### The `Halo3LoadingScreen.py` variant of the basic motion keyframes

`Halo3LoadingScreen.py` predates the manual `insert_location_keyframe` and
calls the host operation `particle.keyframe_insert("location")` at the frame
selected by `bpy.context.scene.frame_set`; we translate the `frame_set` /
`keyframe_insert` ordering into an explicit frame argument.  Its start-jitter
draws `randrange(-ASSEMBLY_START_VARIATION, ASSEMBLY_START_VARIATION)` with
no emptiness guard, so they are embedded with the fallible `randrangeE`. -/

/-- Modelled from the spec: the host `insert_keyframe` collaborator (spec
section 6, "insert_keyframe(handle, channel, frame, value)").  Blender's
`keyframe_insert` keeps each f-curve sorted by frame, replacing an existing
keyframe at the same frame; this host behaviour is not part of the repository
source. -/
def kfInsertSorted (frame v : ℚ) : List Keyframe → List Keyframe
  | [] => [⟨(frame, v), (0, 0), (0, 0), Interp.bezier⟩]
  | k :: rest =>
    if frame < k.co.1 then
      ⟨(frame, v), (0, 0), (0, 0), Interp.bezier⟩ :: k :: rest
    else if frame = k.co.1 then { k with co := (frame, v) } :: rest
    else k :: kfInsertSorted frame v rest

/-- `particle.keyframe_insert("location")` with the scene frame set to
`frame`: each of the three location channels receives the corresponding
component of the particle's current location (curves created on demand). -/
def keyframeInsertLocation (p : ParticleObj) (frame : ℚ) : ParticleObj :=
  let cs := if p.curves.isEmpty then blankLocationCurves else p.curves
  let upd := fun (v : ℚ) (c : FCurve) =>
    { c with keyframePoints := kfInsertSorted frame v c.keyframePoints }
  let cs := modifyIdx 0 (upd p.location.x) cs
  let cs := modifyIdx 1 (upd p.location.y) cs
  let cs := modifyIdx 2 (upd p.location.z) cs
  { p with curves := cs }

/-- The start position of `create_basic_motion_keyframes` in
`Halo3LoadingScreen.py`: emitter-to-particle vector scaled by
`ASSEMBLY_TRAVEL_DISTANCE` plus the integer jitter (no re-translation by the
emitter location and no z flattening in this variant). -/
def halo3StartPos (travel : ℚ) (emitter pLoc : Vec3 ℚ) (xv yv zv : ℚ) :
    Vec3 ℚ :=
  ⟨(pLoc.x - emitter.x) * travel + xv,
   (pLoc.y - emitter.y) * travel + yv,
   (pLoc.z - emitter.z) * travel + zv⟩

/-- The per-particle body of the start-keyframe loop of
`create_basic_motion_keyframes` in `Halo3LoadingScreen.py`: three unguarded
`randrange(-startVar, startVar)` draws, the particle's location is mutated to
the computed start position, and a location keyframe is inserted at
`START_FRAME`. -/
def halo3CbmkStart (startVar : ℤ) (travel startFrame : ℚ) (emitter : Vec3 ℚ)
    (p : ParticleObj) (r : RNG) : Option (ParticleObj × RNG) := do
  let xr ← randrangeE (-startVar) startVar r
  let yr ← randrangeE (-startVar) startVar xr.2
  let zr ← randrangeE (-startVar) startVar yr.2
  let pos := halo3StartPos travel emitter p.location
    ((xr.1 : ℚ)) ((yr.1 : ℚ)) ((zr.1 : ℚ))
  let p := { p with location := pos }
  some (keyframeInsertLocation p startFrame, zr.2)

/-- `create_basic_motion_keyframes(slice, source_emitter)` from
`Halo3LoadingScreen.py`: final location keyframes at
`START_FRAME + ASSEMBLY_ANIMATION_LENGTH` for the whole slice, then the
jittered start keyframes at `START_FRAME`.  Raises (returns `none`) whenever
a jitter draw has an empty range. -/
def halo3_create_basic_motion_keyframes (startFrame len : ℚ) (startVar : ℤ)
    (travel : ℚ) (emitter : Vec3 ℚ) (slice : List ParticleObj) (r : RNG) :
    Option (List ParticleObj × RNG) :=
  let slice1 := slice.map fun p => keyframeInsertLocation p (startFrame + len)
  mapWithRNGE (halo3CbmkStart startVar travel startFrame emitter) slice1 r

/-!  ### Degenerate-geometry guards (claim C7)

`create_basic_motion_keyframes` in `GenerateAnimatedHaloRing.py` computes a
direction sign per axis, guarded against a zero denominator, and
`get_height_factors` in `Halo3LoadingScreen.py` substitutes the epsilon
`0.001` for a zero width.  Division is embedded fallibly so that freedom from
division by zero is a provable statement rather than a modelling artifact. -/

/-- Division that records Python's `ZeroDivisionError` as `none`. -/
def divChecked (a b : ℚ) : Option ℚ :=
  if b = 0 then none else some (a / b)

/-- The per-axis sign computation of `create_basic_motion_keyframes`
(`GenerateAnimatedHaloRing.py` lines 153-164): the sign starts at the neutral
`1` and is replaced by `distance / abs(distance)` only when the distance is
nonzero. -/
def posSignChecked (d : ℚ) : Option ℚ :=
  if d ≠ 0 then divChecked d |d| else some 1

/-- The width computation of `get_height_factors` (`Halo3LoadingScreen.py`):
the larger of the absolute x and y distances, with `0.001` substituted when
that maximum is zero. -/
def widthOf (dx dy : ℚ) : ℚ :=
  let w := if dx > dy then dx else dy
  if w = 0 then 1 / 1000 else w

/-- The raw height factor of one particle in `get_height_factors`: absolute
z distance divided by the guarded width. -/
def heightFactorChecked (pLoc emitter : Vec3 ℚ) : Option ℚ :=
  divChecked |pLoc.z - emitter.z|
    (widthOf |pLoc.x - emitter.x| |pLoc.y - emitter.y|)

/-!  ### Re-parenting correction (claim C9)

The replicator parents every particle to a pivot empty and sets
`matrix_parent_inverse = empty.matrix_world.inverted()`.  The world-matrix
composition rule for parented objects belongs to the host. -/

/-- 4x4 transform matrices over exact rationals. -/
abbrev Mat4 := Matrix (Fin 4) (Fin 4) ℚ

/-- An object as the parenting code sees it: its basis (local) matrix, an
optional parent recorded by the parent's world matrix at evaluation time, and
the stored parent-relative correction `matrix_parent_inverse`. -/
structure SceneObj where
  matrixBasis : Mat4
  parentWorld : Option Mat4
  matrixParentInverse : Mat4

/-- Modelled from the spec: the host scene-graph world-matrix composition for
parented objects (spec sections 4.4 and 6 — the stored transform is
"corrected by the inverse of the pivot's world matrix", i.e. Blender computes
`matrix_world = parent.matrix_world @ matrix_parent_inverse @ matrix_basis`);
an unparented object's world matrix is its basis matrix.  This composition
rule is host behaviour, not repository source. -/
def worldMatrix (o : SceneObj) : Mat4 :=
  match o.parentWorld with
  | none => o.matrixBasis
  | some pw => pw * o.matrixParentInverse * o.matrixBasis

/-- The re-parenting step of `duplicate_slice` / `main` in both generator
scripts: `new_particle.parent = empty; new_particle.matrix_parent_inverse =
empty.matrix_world.inverted()`.  The pivot's world matrix `pivotWorld` and
the result `pivotWorldInv` of `.inverted()` are taken at assignment time. -/
def setParentWithCorrection (child : SceneObj) (pivotWorld pivotWorldInv : Mat4) :
    SceneObj :=
  { child with parentWorld := some pivotWorld
               matrixParentInverse := pivotWorldInv }

/-!  ### The ring replicator's mirror branch (claim C2)

In `main` of each script, sample `k` is rotated to angle `SLICE_ANGLE * k`;
the branch structure decides whether a mirrored duplicate slice is created
and which intrinsic XYZ Euler triple (in degrees) is applied to it. -/

/-- The Euler triple (degrees) passed to `rotate_slice_by_angle` for the
mirrored duplicate of sample `k` in `GenerateAnimatedHaloRing.py`
(`RING_SLICES = 4096`): no mirror at sample 0 and at sample
`RING_SLICES / 2`; otherwise the duplicate is rotated by
`(radians(180), 0, -radians(angle))`. -/
def gahrMirrorEuler (sample : ℕ) : Option (ℚ × ℚ × ℚ) :=
  if sample = 0 then none
  else if (sample : ℚ) = 4096 / 2 then none
  else some (180, 0, -(360 / 4096 * (sample : ℚ)))

/-- The mirrored-duplicate Euler triple for sample `k` in
`Halo3LoadingScreen.py` (`RING_SLICES = 256`): this variant special-cases
sample `RING_SLICES / 2 - 1` instead of `RING_SLICES / 2`. -/
def halo3MirrorEuler (sample : ℕ) : Option (ℚ × ℚ × ℚ) :=
  if sample = 0 then none
  else if (sample : ℚ) = 256 / 2 - 1 then none
  else some (180, 0, -(360 / 256 * (sample : ℚ)))

/-!  ### Rotation geometry (claims C2 and C10)

`rotate_slice_by_angle` converts an intrinsic XYZ Euler triple into the
pivot's native rotation representation via `mathutils`.  We embed rotations
as their action on `ℝ³` vectors.  An Euler triple of a given order denotes
the basic axis rotations applied in that order; quaternions act by
conjugation.  The `mathutils` conversions `Euler.to_quaternion`,
`Quaternion.angle`, `Quaternion.axis` are embedded by their mathematical
definitions (the library is a host collaborator, spec section 6). -/

noncomputable section

open Real

/-- A quaternion `w + xi + yj + zk` over `ℝ`. -/
structure Quat where
  w : ℝ
  x : ℝ
  y : ℝ
  z : ℝ

/-- Quaternion multiplication. -/
def qmul (a b : Quat) : Quat :=
  ⟨a.w * b.w - a.x * b.x - a.y * b.y - a.z * b.z,
   a.w * b.x + a.x * b.w + a.y * b.z - a.z * b.y,
   a.w * b.y - a.x * b.z + a.y * b.w + a.z * b.x,
   a.w * b.z + a.x * b.y - a.y * b.x + a.z * b.w⟩

/-- Quaternion conjugate. -/
def qconj (a : Quat) : Quat := ⟨a.w, -a.x, -a.y, -a.z⟩

/-- Squared quaternion norm. -/
def qnormSq (a : Quat) : ℝ := a.w ^ 2 + a.x ^ 2 + a.y ^ 2 + a.z ^ 2

/-- The rotation action of a (unit) quaternion: `v ↦ q · (0, v) · q⁻¹`. -/
def rotQ (q : Quat) (v : Vec3 ℝ) : Vec3 ℝ :=
  let r := qmul (qmul q ⟨0, v.x, v.y, v.z⟩) (qconj q)
  ⟨r.x, r.y, r.z⟩

/-- Euclidean dot product on `ℝ³`. -/
def dot3 (a b : Vec3 ℝ) : ℝ := a.x * b.x + a.y * b.y + a.z * b.z

/-- Cross product on `ℝ³`. -/
def cross3 (a b : Vec3 ℝ) : Vec3 ℝ :=
  ⟨a.y * b.z - a.z * b.y, a.z * b.x - a.x * b.z, a.x * b.y - a.y * b.x⟩

/-- Rotation by `θ` about the x axis. -/
def rotX (θ : ℝ) (v : Vec3 ℝ) : Vec3 ℝ :=
  ⟨v.x, cos θ * v.y - sin θ * v.z, sin θ * v.y + cos θ * v.z⟩

/-- Rotation by `θ` about the y axis. -/
def rotY (θ : ℝ) (v : Vec3 ℝ) : Vec3 ℝ :=
  ⟨cos θ * v.x + sin θ * v.z, v.y, -sin θ * v.x + cos θ * v.z⟩

/-- Rotation by `θ` about the z axis. -/
def rotZ (θ : ℝ) (v : Vec3 ℝ) : Vec3 ℝ :=
  ⟨cos θ * v.x - sin θ * v.y, sin θ * v.x + cos θ * v.y, v.z⟩

/-- The unit quaternion of the rotation by `θ` about the x axis. -/
def qX (θ : ℝ) : Quat := ⟨cos (θ / 2), sin (θ / 2), 0, 0⟩

/-- The unit quaternion of the rotation by `θ` about the y axis. -/
def qY (θ : ℝ) : Quat := ⟨cos (θ / 2), 0, sin (θ / 2), 0⟩

/-- The unit quaternion of the rotation by `θ` about the z axis. -/
def qZ (θ : ℝ) : Quat := ⟨cos (θ / 2), 0, 0, sin (θ / 2)⟩

/-- Blender Euler rotation orders: the order names the sequence in which the
per-axis rotations are applied. -/
inductive EulerOrder where
  | XYZ | XZY | YXZ | YZX | ZXY | ZYX
deriving DecidableEq

/-- The rotation denoted by an Euler triple `e` (components are always the
x, y, z angles) in a given order: the axis rotations applied in that order. -/
def eulerRot (o : EulerOrder) (e : Vec3 ℝ) (v : Vec3 ℝ) : Vec3 ℝ :=
  match o with
  | .XYZ => rotZ e.z (rotY e.y (rotX e.x v))
  | .XZY => rotY e.y (rotZ e.z (rotX e.x v))
  | .YXZ => rotZ e.z (rotX e.x (rotY e.y v))
  | .YZX => rotX e.x (rotZ e.z (rotY e.y v))
  | .ZXY => rotY e.y (rotX e.x (rotZ e.z v))
  | .ZYX => rotX e.x (rotY e.y (rotZ e.z v))

/-- `mathutils.Euler(e, 'XYZ').to_quaternion()`: the quaternion of the
composite rotation Z after Y after X. -/
def eulerToQuatXYZ (e : Vec3 ℝ) : Quat :=
  qmul (qZ e.z) (qmul (qY e.y) (qX e.x))

/-- `mathutils.Quaternion.angle` for a unit quaternion: `2 · arccos w`. -/
def quatAngle (q : Quat) : ℝ := 2 * arccos q.w

/-- The norm of a quaternion's vector part. -/
def vecNorm (q : Quat) : ℝ := Real.sqrt (q.x ^ 2 + q.y ^ 2 + q.z ^ 2)

/-- `mathutils.Quaternion.axis`: the normalised vector part (degenerate
vector part gives an arbitrary axis; any choice denotes the identity since
the angle is then a multiple of `2π`). -/
def quatAxis (q : Quat) : Vec3 ℝ :=
  if vecNorm q = 0 then ⟨0, 0, 0⟩
  else ⟨q.x / vecNorm q, q.y / vecNorm q, q.z / vecNorm q⟩

/-- The rotation denoted by an axis-angle pair (Rodrigues formula). -/
def rodrigues (θ : ℝ) (u v : Vec3 ℝ) : Vec3 ℝ :=
  ⟨cos θ * v.x + sin θ * (cross3 u v).x + (1 - cos θ) * dot3 u v * u.x,
   cos θ * v.y + sin θ * (cross3 u v).y + (1 - cos θ) * dot3 u v * u.y,
   cos θ * v.z + sin θ * (cross3 u v).z + (1 - cos θ) * dot3 u v * u.z⟩

/-- A pivot's configured rotation mode. -/
inductive RotMode where
  | quaternion
  | axisAngle
  | euler (o : EulerOrder)
deriving DecidableEq

/-- The rotation stored on the pivot after `rotate_slice_by_angle`, in the
pivot's native representation. -/
inductive StoredRot where
  | quat (q : Quat)
  | axisAngle (angle : ℝ) (axis : Vec3 ℝ)
  | euler (o : EulerOrder) (e : Vec3 ℝ)

/-- `rotate_slice_by_angle(empty, angle_vector)` from both generator scripts:
build the XYZ Euler from `angle_vector`, then store it in the pivot's native
representation — the quaternion for `QUATERNION` mode, the quaternion's
angle and axis for `AXIS_ANGLE` mode, the Euler itself when the pivot's
Euler order is already `XYZ`, and otherwise
`euler.to_quaternion().to_euler(mode)`, whose result the host `mathutils`
library returns; that result enters here as the parameter `toEulerResult`
(its library contract is a hypothesis of the theorems below). -/
def rotate_slice_by_angle (mode : RotMode) (e : Vec3 ℝ)
    (toEulerResult : Vec3 ℝ) : StoredRot :=
  let q := eulerToQuatXYZ e
  match mode with
  | .quaternion => .quat q
  | .axisAngle => .axisAngle (quatAngle q) (quatAxis q)
  | .euler o => if o = .XYZ then .euler .XYZ e else .euler o toEulerResult

/-- The orientation denoted by a stored rotation, as its action on vectors. -/
def denoteStored : StoredRot → Vec3 ℝ → Vec3 ℝ
  | .quat q => rotQ q
  | .axisAngle θ u => rodrigues θ u
  | .euler o e => eulerRot o e

/-- Degrees (exact rationals from the scripts) to radians:
`math.radians`. -/
def radOfDeg (d : ℚ) : ℝ := (d : ℝ) * π / 180

/-- The orientation denoted by an XYZ Euler triple given in degrees, as the
scripts pass it (`math.radians` on each component). -/
def eulerXYZDegRot (a b c : ℚ) : Vec3 ℝ → Vec3 ℝ :=
  eulerRot .XYZ ⟨radOfDeg a, radOfDeg b, radOfDeg c⟩

end

/-!  ### Geometry lemmas -/

open Real

theorem rotQ_qmul (p q : Quat) (v : Vec3 ℝ) :
    rotQ (qmul p q) v = rotQ p (rotQ q v) := by
  simp only [rotQ, qmul, qconj, Vec3.mk.injEq]
  refine ⟨by ring, by ring, by ring⟩

theorem qnormSq_qmul (p q : Quat) :
    qnormSq (qmul p q) = qnormSq p * qnormSq q := by
  simp only [qnormSq, qmul]
  ring

theorem rotQ_qX (θ : ℝ) (v : Vec3 ℝ) : rotQ (qX θ) v = rotX θ v := by
  have h := Real.sin_sq_add_cos_sq (θ / 2)
  have hc := Real.cos_two_mul (θ / 2)
  have hs := Real.sin_two_mul (θ / 2)
  rw [show 2 * (θ / 2) = θ by ring] at hc hs
  simp only [rotQ, qmul, qconj, qX, rotX, Vec3.mk.injEq, hc, hs]
  refine ⟨by linear_combination v.x * h, by linear_combination (-v.y) * h,
    by linear_combination (-v.z) * h⟩

theorem rotQ_qY (θ : ℝ) (v : Vec3 ℝ) : rotQ (qY θ) v = rotY θ v := by
  have h := Real.sin_sq_add_cos_sq (θ / 2)
  have hc := Real.cos_two_mul (θ / 2)
  have hs := Real.sin_two_mul (θ / 2)
  rw [show 2 * (θ / 2) = θ by ring] at hc hs
  simp only [rotQ, qmul, qconj, qY, rotY, Vec3.mk.injEq, hc, hs]
  refine ⟨by linear_combination (-v.x) * h, by linear_combination v.y * h,
    by linear_combination (-v.z) * h⟩

theorem rotQ_qZ (θ : ℝ) (v : Vec3 ℝ) : rotQ (qZ θ) v = rotZ θ v := by
  have h := Real.sin_sq_add_cos_sq (θ / 2)
  have hc := Real.cos_two_mul (θ / 2)
  have hs := Real.sin_two_mul (θ / 2)
  rw [show 2 * (θ / 2) = θ by ring] at hc hs
  simp only [rotQ, qmul, qconj, qZ, rotZ, Vec3.mk.injEq, hc, hs]
  refine ⟨by linear_combination (-v.x) * h, by linear_combination (-v.y) * h,
    by linear_combination v.z * h⟩

theorem rotQ_eulerToQuatXYZ (e : Vec3 ℝ) (v : Vec3 ℝ) :
    rotQ (eulerToQuatXYZ e) v = eulerRot .XYZ e v := by
  simp only [eulerToQuatXYZ, eulerRot]
  rw [rotQ_qmul, rotQ_qmul, rotQ_qX, rotQ_qY, rotQ_qZ]

theorem qnormSq_qX (θ : ℝ) : qnormSq (qX θ) = 1 := by
  simp only [qnormSq, qX]
  linear_combination Real.sin_sq_add_cos_sq (θ / 2)

theorem qnormSq_qY (θ : ℝ) : qnormSq (qY θ) = 1 := by
  simp only [qnormSq, qY]
  linear_combination Real.sin_sq_add_cos_sq (θ / 2)

theorem qnormSq_qZ (θ : ℝ) : qnormSq (qZ θ) = 1 := by
  simp only [qnormSq, qZ]
  linear_combination Real.sin_sq_add_cos_sq (θ / 2)

theorem qnormSq_eulerToQuatXYZ (e : Vec3 ℝ) :
    qnormSq (eulerToQuatXYZ e) = 1 := by
  simp only [eulerToQuatXYZ, qnormSq_qmul, qnormSq_qX, qnormSq_qY, qnormSq_qZ]
  ring

/-- The quaternion action written out: for any quaternion,
`q (0,v) q* = (w² − |u|²) v + 2 (u·v) u + 2 w (u × v)` with `u` the vector
part (a pure polynomial identity). -/
theorem rotQ_expand (q : Quat) (v : Vec3 ℝ) :
    rotQ q v =
      ⟨(q.w ^ 2 - (q.x ^ 2 + q.y ^ 2 + q.z ^ 2)) * v.x +
        2 * dot3 ⟨q.x, q.y, q.z⟩ v * q.x +
        2 * q.w * (cross3 ⟨q.x, q.y, q.z⟩ v).x,
       (q.w ^ 2 - (q.x ^ 2 + q.y ^ 2 + q.z ^ 2)) * v.y +
        2 * dot3 ⟨q.x, q.y, q.z⟩ v * q.y +
        2 * q.w * (cross3 ⟨q.x, q.y, q.z⟩ v).y,
       (q.w ^ 2 - (q.x ^ 2 + q.y ^ 2 + q.z ^ 2)) * v.z +
        2 * dot3 ⟨q.x, q.y, q.z⟩ v * q.z +
        2 * q.w * (cross3 ⟨q.x, q.y, q.z⟩ v).z⟩ := by
  simp only [rotQ, qmul, qconj, dot3, cross3, Vec3.mk.injEq]
  refine ⟨by ring, by ring, by ring⟩

/-- For a unit quaternion, the axis-angle pair extracted by `mathutils`
(angle `2·arccos w`, normalised vector part) denotes the same rotation. -/
theorem rodrigues_quatAngle_quatAxis (q : Quat) (hq : qnormSq q = 1)
    (v : Vec3 ℝ) : rodrigues (quatAngle q) (quatAxis q) v = rotQ q v := by
  have hn0 : 0 ≤ vecNorm q := Real.sqrt_nonneg _
  have hnsq : vecNorm q ^ 2 = q.x ^ 2 + q.y ^ 2 + q.z ^ 2 :=
    Real.sq_sqrt (by positivity)
  have hw : q.w ^ 2 + vecNorm q ^ 2 = 1 := by
    have hq' : q.w ^ 2 + q.x ^ 2 + q.y ^ 2 + q.z ^ 2 = 1 := hq
    rw [hnsq]; linarith
  have hw1 : -1 ≤ q.w := by nlinarith [sq_nonneg (vecNorm q), sq_nonneg (q.w + 1)]
  have hw2 : q.w ≤ 1 := by nlinarith [sq_nonneg (vecNorm q), sq_nonneg (q.w - 1)]
  have hcos : cos (quatAngle q) = 2 * q.w ^ 2 - 1 := by
    have h := Real.cos_two_mul (arccos q.w)
    rw [Real.cos_arccos hw1 hw2] at h
    simpa [quatAngle] using h
  have hsin : sin (quatAngle q) = 2 * q.w * vecNorm q := by
    have h := Real.sin_two_mul (arccos q.w)
    rw [Real.sin_arccos, Real.cos_arccos hw1 hw2,
      show 1 - q.w ^ 2 = vecNorm q ^ 2 by linarith, Real.sqrt_sq hn0] at h
    show sin (2 * arccos q.w) = 2 * q.w * vecNorm q
    rw [h]; ring
  rw [rotQ_expand]
  by_cases h : vecNorm q = 0
  · have hsum : q.x ^ 2 + q.y ^ 2 + q.z ^ 2 = 0 := by
      rw [← hnsq, h]; ring
    have hx : q.x = 0 := by nlinarith [sq_nonneg q.x, sq_nonneg q.y, sq_nonneg q.z]
    have hy : q.y = 0 := by nlinarith [sq_nonneg q.x, sq_nonneg q.y, sq_nonneg q.z]
    have hz : q.z = 0 := by nlinarith [sq_nonneg q.x, sq_nonneg q.y, sq_nonneg q.z]
    have hw1' : q.w ^ 2 = 1 := by rw [h] at hw; linarith
    simp only [rodrigues, quatAxis, if_pos h, cross3, dot3, hcos, hx, hy, hz,
      Vec3.mk.injEq]
    refine ⟨by linear_combination v.x * hw1', by linear_combination v.y * hw1',
      by linear_combination v.z * hw1'⟩
  · simp only [rodrigues, quatAxis, if_neg h, cross3, dot3, hcos, hsin,
      Vec3.mk.injEq]
    have hne : vecNorm q ≠ 0 := h
    refine ⟨?_, ?_, ?_⟩ <;> field_simp
    · linear_combination (-(v.x) * vecNorm q ^ 3) * hnsq +
        (vecNorm q * (v.x * vecNorm q ^ 2 - 2 * v.x * q.x ^ 2 -
          2 * q.x * (q.y * v.y + q.z * v.z))) * hw
    · linear_combination (-(v.y) * vecNorm q ^ 3) * hnsq +
        (vecNorm q * (v.y * vecNorm q ^ 2 - 2 * v.y * q.y ^ 2 -
          2 * q.y * (q.z * v.z + q.x * v.x))) * hw
    · linear_combination (-(v.z) * vecNorm q ^ 3) * hnsq +
        (vecNorm q * (v.z * vecNorm q ^ 2 - 2 * v.z * q.z ^ 2 -
          2 * q.z * (q.x * v.x + q.y * v.y))) * hw

theorem rotX_zero (v : Vec3 ℝ) : rotX 0 v = v := by
  simp [rotX]

theorem rotY_zero (v : Vec3 ℝ) : rotY 0 v = v := by
  simp [rotY]

theorem rotZ_zero (v : Vec3 ℝ) : rotZ 0 v = v := by
  simp [rotZ]

theorem rotZ_add_two_pi (θ : ℝ) (v : Vec3 ℝ) :
    rotZ (θ + 2 * π) v = rotZ θ v := by
  simp [rotZ, Real.cos_add_two_pi, Real.sin_add_two_pi]

/-- The geometric content of the mirror placement: an XYZ Euler triple
`(180°, 0, −θ)` denotes exactly "rotate 180° about the x axis, then place at
azimuth `180 + (180 − θ)` degrees" (the z angles `−θ` and `360 − θ` differ by
a full turn). -/
theorem mirror_placement (θ : ℚ) (v : Vec3 ℝ) :
    eulerXYZDegRot 180 0 (-θ) v =
      rotZ (radOfDeg (180 + (180 - θ))) (rotX (radOfDeg 180) v) := by
  have h : radOfDeg (180 + (180 - θ)) = radOfDeg (-θ) + 2 * π := by
    unfold radOfDeg; push_cast; ring
  have h0 : radOfDeg 0 = 0 := by unfold radOfDeg; norm_num
  show rotZ (radOfDeg (-θ)) (rotY (radOfDeg 0) (rotX (radOfDeg 180) v)) = _
  rw [h0, rotY_zero, h, rotZ_add_two_pi]

/-!  ### Arithmetic and list helpers for the claim theorems -/

/-- A concrete all-zero draw stream, used for counterexamples. -/
def zeroRNG : RNG := ⟨fun _ => 0, 0⟩

theorem flightFrame_mem (startF len : ℚ) (lo hi : ℤ) (r : RNG)
    (h1 : pyInt (startF + ((1 - 1 / 5) / 2) * len) = lo)
    (h2 : pyInt ((startF + len) - ((1 - 1 / 5) / 2) * len) = hi)
    (hlt : lo < hi) :
    lo ≤ (flightFrame startF len r).1 ∧ (flightFrame startF len r).1 < hi := by
  simp only [flightFrame, randrange, h1, h2]
  constructor
  · have := Int.emod_nonneg ((r.s r.k : ℤ)) (by omega : hi - lo ≠ 0)
    omega
  · have := Int.emod_lt_of_pos ((r.s r.k : ℤ)) (by omega : (0 : ℤ) < hi - lo)
    omega

theorem mapWithRNG_pure (f : ParticleObj → RNG → ParticleObj × RNG)
    (g : ParticleObj → ParticleObj) (hf : ∀ p r, f p r = (g p, r)) :
    ∀ (l : List ParticleObj) (r : RNG), mapWithRNG f l r = (l.map g, r) := by
  intro l
  induction l with
  | nil => intro r; rfl
  | cons p ps ih => intro r; simp [mapWithRNG, hf, ih]

theorem removeEasingCurve_eq (c : FCurve)
    (h : c.dataPath = "location" → c.keyframePoints ≠ []) :
    removeEasingCurve c =
      some (if c.dataPath = "location" then collapsedStart c else c) := by
  unfold removeEasingCurve
  by_cases hd : c.dataPath = "location"
  · cases hkp : c.keyframePoints with
    | nil => exact absurd hkp (h hd)
    | cons k rest => simp [hd, hkp]
  · simp [hd]

theorem mapM_removeEasing (cs : List FCurve)
    (h : ∀ c ∈ cs, c.dataPath = "location" → c.keyframePoints ≠ []) :
    cs.mapM removeEasingCurve =
      some (cs.map fun c =>
        if c.dataPath = "location" then collapsedStart c else c) := by
  induction cs with
  | nil => rfl
  | cons c cs ih =>
    rw [List.mapM_cons, removeEasingCurve_eq c (h c (List.mem_cons_self c cs)),
      ih fun c2 hc2 => h c2 (List.mem_cons_of_mem c hc2)]
    rfl

theorem widthOf_ne_zero (dx dy : ℚ) : widthOf dx dy ≠ 0 := by
  unfold widthOf
  by_cases h : (if dx > dy then dx else dy) = 0
  · simp only [h, if_pos rfl]
    norm_num
  · simp only [if_neg h]
    exact h

/-!  ### The claims -/

/-- Claim C1: for a particle whose target location is `(2, 0, 0)`, with the
assembly origin (emitter) at `(0, 0, 0)`, travel-distance multiplier 25 and
jitter magnitude configured as 0, `create_basic_motion_keyframes` inserts the
final keyframe at the animation end frame with the target location and the
start keyframe at the animation start frame with location exactly
`(50, 0, 0)` — for every animation start frame, assembly length and random
stream (no draw happens at jitter 0). -/
theorem c1_start_keyframe_scaled (startF len : ℚ) (r : RNG) :
    (create_basic_motion_keyframes
      { ringAnimStart := startF, assemblyLen := len, travelDist := 25,
        startVariation := 0, flightVariation := 1, randomVariation := 20 }
      ⟨0, 0, 0⟩ [⟨⟨2, 0, 0⟩, []⟩] r).1 =
    [⟨⟨2, 0, 0⟩,
      [⟨"location", 0,
        [⟨(startF + len, 2), (0, 0), (0, 0), Interp.bezier⟩,
         ⟨(startF, 50), (0, 0), (0, 0), Interp.bezier⟩]⟩,
       ⟨"location", 1,
        [⟨(startF + len, 0), (0, 0), (0, 0), Interp.bezier⟩,
         ⟨(startF, 0), (0, 0), (0, 0), Interp.bezier⟩]⟩,
       ⟨"location", 2,
        [⟨(startF + len, 0), (0, 0), (0, 0), Interp.bezier⟩,
         ⟨(startF, 0), (0, 0), (0, 0), Interp.bezier⟩]⟩]⟩] := by
  simp only [create_basic_motion_keyframes, List.map, insert_location_keyframe,
    blankLocationCurves, List.isEmpty, modifyIdx, appendKeyframe, mapWithRNG,
    cbmkStart, gahrStartPos]
  norm_num [pyInt]

/-- Claim C7: the degenerate-geometry guards never divide by zero.  The
per-axis sign computation of `create_basic_motion_keyframes` yields the
neutral `1` for a zero direction component and always succeeds, and
`get_height_factors` substitutes the epsilon `0.001` when the horizontal
width (max of the absolute x and y distances) is zero, so the height factor
always succeeds as well. -/
theorem c7_degenerate_guards :
    (∀ d : ℚ, d = 0 → posSignChecked d = some 1) ∧
    (∀ d : ℚ, (posSignChecked d).isSome = true) ∧
    (∀ pLoc emitter : Vec3 ℚ, |pLoc.x - emitter.x| = 0 →
      |pLoc.y - emitter.y| = 0 →
      widthOf |pLoc.x - emitter.x| |pLoc.y - emitter.y| = 1 / 1000) ∧
    (∀ pLoc emitter : Vec3 ℚ,
      (heightFactorChecked pLoc emitter).isSome = true) := by
  refine ⟨?_, ?_, ?_, ?_⟩
  · intro d hd
    simp [posSignChecked, hd]
  · intro d
    by_cases hd : d = 0
    · simp [posSignChecked, hd]
    · simp [posSignChecked, hd, divChecked, abs_eq_zero]
  · intro pLoc emitter hx hy
    simp [widthOf, hx, hy]
  · intro pLoc emitter
    simp [heightFactorChecked, divChecked, widthOf_ne_zero]

/-- Claim C9: re-parenting with the correction set to the inverse of the
pivot's world matrix at assignment time leaves the object's world matrix
(position and orientation) unchanged. -/
theorem c9_reparent_preserves_world (B C pivotWorld pivotWorldInv : Mat4)
    (hinv : pivotWorld * pivotWorldInv = 1) :
    worldMatrix (setParentWithCorrection ⟨B, none, C⟩ pivotWorld pivotWorldInv) =
      worldMatrix ⟨B, none, C⟩ := by
  simp [worldMatrix, setParentWithCorrection, hinv]

/-- Witness for C9 at concrete matrices (identity pivot). -/
theorem c9_witness :
    worldMatrix (setParentWithCorrection ⟨1, none, 1⟩ 1 1) =
      worldMatrix ⟨1, none, 1⟩ :=
  c9_reparent_preserves_world 1 1 1 1 (mul_one 1)

/-- Claim C3: `randomize_keyframe_delay` draws one delay in
`[0, max_variation)` per object and advances every keyframe point (and both
handles) of every one of that object's location and material curves by that
identical delay, so every such channel's frames all move by the same delta. -/
theorem c3_uniform_delay (variation : ℤ) (p : ParticleObj) (r : RNG)
    (hv : 0 < variation) :
    (0 ≤ rkdDelay variation r ∧ rkdDelay variation r < variation) ∧
    (rkdParticle variation p r).1.curves =
      p.curves.map (fun c =>
        if delayedPath c.dataPath then
          { c with keyframePoints := c.keyframePoints.map (shiftKeyframe (rkdDelay variation r : ℚ)) }
        else c) ∧
    (∀ (i : ℕ) (c : FCurve), p.curves[i]? = some c →
      delayedPath c.dataPath = true →
      ((rkdParticle variation p r).1.curves[i]?).map
          (fun c2 => c2.keyframePoints.map fun k => k.co.1) =
        some (c.keyframePoints.map fun k => k.co.1 + (rkdDelay variation r : ℚ))) := by
  have hcurves : (rkdParticle variation p r).1.curves =
      p.curves.map (fun c =>
        if delayedPath c.dataPath then
          { c with keyframePoints := c.keyframePoints.map (shiftKeyframe (rkdDelay variation r : ℚ)) }
        else c) := by
    simp [rkdParticle, rkdDelay, hv]
  refine ⟨?_, hcurves, ?_⟩
  · simp only [rkdDelay, hv, if_pos, randrange]
    constructor
    · have := Int.emod_nonneg ((r.s r.k : ℤ))
        (by omega : variation - 0 ≠ 0)
      omega
    · have := Int.emod_lt_of_pos ((r.s r.k : ℤ))
        (by omega : (0 : ℤ) < variation - 0)
      omega
  · intro i c hi hd
    rw [hcurves, List.getElem?_map, hi]
    simp [hd, shiftKeyframe, Function.comp]

/-- Witness for C3: one object with a location curve and a material curve,
each holding one keyframe, with `max_variation = 20` and the all-zero draw
stream. -/
theorem c3_witness : 0 ≤ rkdDelay 20 zeroRNG ∧ rkdDelay 20 zeroRNG < 20 :=
  (c3_uniform_delay 20
    ⟨⟨0, 0, 0⟩,
     [⟨"location", 0, [⟨(120, 2), (0, 0), (0, 0), Interp.bezier⟩]⟩,
      ⟨"[\"Orb Visibility\"]", 0,
       [⟨(120, 1), (0, 0), (0, 0), Interp.bezier⟩]⟩]⟩ zeroRNG (by decide)).1

/-- Witness for C7 at concrete degenerate inputs. -/
theorem c7_witness :
    posSignChecked 0 = some 1 ∧
    (posSignChecked (-3)).isSome = true ∧
    widthOf |(0 : ℚ) - 0| |(0 : ℚ) - 0| = 1 / 1000 ∧
    (heightFactorChecked ⟨0, 0, 5⟩ ⟨0, 0, 0⟩).isSome = true :=
  ⟨c7_degenerate_guards.1 0 rfl,
   c7_degenerate_guards.2.1 (-3),
   c7_degenerate_guards.2.2.1 ⟨0, 0, 5⟩ ⟨0, 0, 0⟩ (by norm_num) (by norm_num),
   c7_degenerate_guards.2.2.2 ⟨0, 0, 5⟩ ⟨0, 0, 0⟩⟩

/-- Counterexample to claim C4 as stated: running the curve-construction
pipeline of `GenerateAnimatedHaloRing.py` (`create_basic_motion_keyframes`
followed by `randomize_flight_pattern`, the cited constructors of every
location curve) on one particle at `(2, 0, 0)` with the all-zero draw stream
yields a location x-curve whose keyframe frames in storage order are
`[220, 120, 160]` — not strictly increasing, because the end keyframe is
appended before the start keyframe and nothing re-sorts the points. -/
theorem c4_counterexample :
    ¬ List.Chain' (· < ·)
      ((((randomize_flight_pattern gahrCfg
          (create_basic_motion_keyframes gahrCfg ⟨0, 0, 0⟩
            [⟨⟨2, 0, 0⟩, []⟩] zeroRNG).1
          (create_basic_motion_keyframes gahrCfg ⟨0, 0, 0⟩
            [⟨⟨2, 0, 0⟩, []⟩] zeroRNG).2).1.headD
            ⟨⟨0, 0, 0⟩, []⟩).curves.headD ⟨"", 0, []⟩).keyframePoints.map
        fun k => k.co.1) := by
  have hlist : (((((randomize_flight_pattern gahrCfg
      (create_basic_motion_keyframes gahrCfg ⟨0, 0, 0⟩
        [⟨⟨2, 0, 0⟩, []⟩] zeroRNG).1
      (create_basic_motion_keyframes gahrCfg ⟨0, 0, 0⟩
        [⟨⟨2, 0, 0⟩, []⟩] zeroRNG).2).1.headD
        ⟨⟨0, 0, 0⟩, []⟩).curves.headD ⟨"", 0, []⟩).keyframePoints.map
      fun k => k.co.1) : List ℚ) = [220, 120, 160] := by
    norm_num [create_basic_motion_keyframes, mapWithRNG, cbmkStart,
      randomize_flight_pattern, rfpParticle, flightFrame, randrange,
      insert_location_keyframe_empty, insert_location_keyframe_three,
      appendKeyframe, zeroRNG, gahrCfg, pyInt, gahrStartPos]
  rw [hlist]
  simp only [List.chain'_cons, List.chain'_singleton, and_true]
  norm_num

/-- Claim C4 amended: after the per-object curve construction
(`create_basic_motion_keyframes` then `randomize_flight_pattern`) each of
the three location curves stores its keyframes in insertion order — end
keyframe (frame 220) first, start keyframe (frame 120) second, mid-flight
keyframe (a frame in `[160, 179]`) third.  The frames are pairwise distinct
but the stored sequence is not sorted by frame, and no sorting step runs. -/
theorem c4_insertion_order (emitter loc : Vec3 ℚ) (r : RNG) :
    ∃ f : ℚ, 160 ≤ f ∧ f ≤ 179 ∧
      ((randomize_flight_pattern gahrCfg
          (create_basic_motion_keyframes gahrCfg emitter [⟨loc, []⟩] r).1
          (create_basic_motion_keyframes gahrCfg emitter [⟨loc, []⟩] r).2).1.map
        fun p => p.curves.map fun c => c.keyframePoints.map fun k => k.co.1) =
      [[[220, 120, f], [220, 120, f], [220, 120, f]]] := by
  obtain ⟨hlo, hhi⟩ := flightFrame_mem gahrCfg.ringAnimStart
    gahrCfg.assemblyLen 160 180
    (create_basic_motion_keyframes gahrCfg emitter [⟨loc, []⟩] r).2
    (by norm_num [pyInt, gahrCfg]) (by norm_num [pyInt, gahrCfg])
    (by norm_num)
  refine ⟨((flightFrame gahrCfg.ringAnimStart gahrCfg.assemblyLen
    (create_basic_motion_keyframes gahrCfg emitter [⟨loc, []⟩] r).2).1 : ℚ),
    ?_, ?_, ?_⟩
  · exact_mod_cast hlo
  · have h179 : (flightFrame gahrCfg.ringAnimStart gahrCfg.assemblyLen
        (create_basic_motion_keyframes gahrCfg emitter [⟨loc, []⟩] r).2).1 ≤
        179 := by omega
    exact_mod_cast h179
  · norm_num [create_basic_motion_keyframes, mapWithRNG, cbmkStart,
      randomize_flight_pattern, rfpParticle, insert_location_keyframe_empty,
      insert_location_keyframe_three, appendKeyframe, gahrCfg, pyInt]

/-- Counterexample to claim C6 as stated: in `Halo3LoadingScreen.py`'s
`create_basic_motion_keyframes`, a start-jitter magnitude configured as 0
makes the very first `randrange(-0, 0)` an empty range, so the call raises
(`none`) instead of placing deterministically. -/
theorem c6_counterexample :
    (halo3_create_basic_motion_keyframes 0 80 0 25 ⟨0, 0, 0⟩
      [⟨⟨2, 0, 0⟩, []⟩] zeroRNG).isNone = true := by
  decide

/-- Claim C6 amended: with the jitter magnitude configured as 0,
`GenerateAnimatedHaloRing.py`'s `create_basic_motion_keyframes` performs no
random draw (the stream cursor comes back untouched) and its placement is
deterministic (the produced slice does not depend on the stream), with no
error; `Halo3LoadingScreen.py`'s variant instead raises on every nonempty
slice because its unguarded `randrange(-0, 0)` has an empty range. -/
theorem c6_zero_jitter (cfg : AsmCfg) (hv : cfg.startVariation = 0)
    (emitter : Vec3 ℚ) (slice : List ParticleObj) (r r2 : RNG) :
    ((create_basic_motion_keyframes cfg emitter slice r).2 = r ∧
     (create_basic_motion_keyframes cfg emitter slice r).1 =
       (create_basic_motion_keyframes cfg emitter slice r2).1) ∧
    (∀ (startFrame len travel : ℚ) (e2 : Vec3 ℚ) (p : ParticleObj)
        (ps : List ParticleObj) (r3 : RNG),
      halo3_create_basic_motion_keyframes startFrame len 0 travel e2
        (p :: ps) r3 = none) := by
  have hstep : ∀ (p : ParticleObj) (r0 : RNG), cbmkStart cfg emitter p r0 =
      (insert_location_keyframe p cfg.ringAnimStart
        (gahrStartPos cfg emitter p.location 0 0 0), r0) := by
    intro p r0
    norm_num [cbmkStart, hv, pyInt]
  have hc : ∀ r0 : RNG, create_basic_motion_keyframes cfg emitter slice r0 =
      ((slice.map fun p => insert_location_keyframe p
          (cfg.ringAnimStart + cfg.assemblyLen) p.location).map
        fun p => insert_location_keyframe p cfg.ringAnimStart
          (gahrStartPos cfg emitter p.location 0 0 0), r0) := by
    intro r0
    rw [create_basic_motion_keyframes]
    exact mapWithRNG_pure _ _ hstep _ r0
  refine ⟨⟨by rw [hc r], by rw [hc r, hc r2]⟩, ?_⟩
  intro startFrame len travel e2 p ps r3
  simp [halo3_create_basic_motion_keyframes, mapWithRNGE, halo3CbmkStart,
    randrangeE]

/-- Witness for the amended C6 at a concrete zero-jitter configuration. -/
theorem c6_witness :
    (create_basic_motion_keyframes ⟨120, 100, 30, 0, 1, 20⟩ ⟨0, 0, 0⟩
      [⟨⟨2, 0, 0⟩, []⟩] zeroRNG).2 = zeroRNG :=
  (c6_zero_jitter ⟨120, 100, 30, 0, 1, 20⟩ rfl ⟨0, 0, 0⟩
    [⟨⟨2, 0, 0⟩, []⟩] zeroRNG zeroRNG).1.1

/-- Claim C5: `randomize_flight_pattern` inserts exactly one extra location
keyframe per object, all three location channels at one shared frame, and
that frame lies in the middle fifth of the travel window
`[start + 0.4·L, start + 0.6·L]` — shown for the
`GenerateAnimatedHaloRing.py` configuration (start 120, length 100), plus
the same window bound for the variation-frame computation at the
`Halo3LoadingScreen.py` configuration (start 0, length 80). -/
theorem c5_flight_window (loc : Vec3 ℚ) (c0 c1 c2 : FCurve) (r : RNG) :
    (∃ f : ℚ,
      ((randomize_flight_pattern gahrCfg [⟨loc, [c0, c1, c2]⟩] r).1.map
        fun p => p.curves.map fun c => c.keyframePoints.map fun k => k.co.1) =
        [[c0.keyframePoints.map (fun k => k.co.1) ++ [f],
          c1.keyframePoints.map (fun k => k.co.1) ++ [f],
          c2.keyframePoints.map (fun k => k.co.1) ++ [f]]] ∧
      120 + 2 / 5 * 100 ≤ f ∧ f ≤ 120 + 3 / 5 * 100) ∧
    (∀ r2 : RNG, (0 : ℚ) + 2 / 5 * 80 ≤ ((flightFrame 0 80 r2).1 : ℚ) ∧
      ((flightFrame 0 80 r2).1 : ℚ) ≤ (0 : ℚ) + 3 / 5 * 80) := by
  constructor
  · have h1 : pyInt (gahrCfg.ringAnimStart +
        ((1 - 1 / 5) / 2) * gahrCfg.assemblyLen) = 160 := by
      norm_num [pyInt, gahrCfg]
    have h2 : pyInt ((gahrCfg.ringAnimStart + gahrCfg.assemblyLen) -
        ((1 - 1 / 5) / 2) * gahrCfg.assemblyLen) = 180 := by
      norm_num [pyInt, gahrCfg]
    obtain ⟨hlo, hhi⟩ := flightFrame_mem _ _ 160 180 r h1 h2 (by norm_num)
    refine ⟨(((flightFrame gahrCfg.ringAnimStart gahrCfg.assemblyLen r).1 :
      ℤ) : ℚ), ?_, ?_, ?_⟩
    · simp only [randomize_flight_pattern, mapWithRNG, rfpParticle,
        insert_location_keyframe, modifyIdx, appendKeyframe, List.map]
      norm_num [gahrCfg, pyInt]
    · norm_num
      exact_mod_cast hlo
    · norm_num
      have h179 : ((flightFrame gahrCfg.ringAnimStart gahrCfg.assemblyLen
          r).1 : ℚ) ≤ 179 := by
        exact_mod_cast (by omega :
          (flightFrame gahrCfg.ringAnimStart gahrCfg.assemblyLen r).1 ≤ 179)
      linarith
  · intro r2
    have h1 : pyInt ((0 : ℚ) + ((1 - 1 / 5) / 2) * 80) = 32 := by
      norm_num [pyInt]
    have h2 : pyInt (((0 : ℚ) + 80) - ((1 - 1 / 5) / 2) * 80) = 48 := by
      norm_num [pyInt]
    obtain ⟨hlo, hhi⟩ := flightFrame_mem _ _ 32 48 r2 h1 h2 (by norm_num)
    constructor
    · norm_num
      exact_mod_cast hlo
    · norm_num
      have h47 : ((flightFrame 0 80 r2).1 : ℚ) ≤ 47 := by
        exact_mod_cast (by omega : (flightFrame 0 80 r2).1 ≤ 47)
      linarith

/-- Claim C8: `remove_easing_on_start_frame` sets the first keyframe point's
right handle of every location curve exactly equal to that point's `co`,
leaving the point's own coordinates, its left handle, its interpolation,
every later keyframe point, and every non-location curve unchanged. -/
theorem c8_collapse_start_handle (p : ParticleObj)
    (h : ∀ c ∈ p.curves, c.dataPath = "location" → c.keyframePoints ≠ []) :
    remove_easing_on_start_frame p =
      some { p with curves := p.curves.map fun c =>
        if c.dataPath = "location" then collapsedStart c else c } ∧
    (∀ (dp : String) (idx : ℕ) (k : Keyframe) (rest : List Keyframe),
      collapsedStart ⟨dp, idx, k :: rest⟩ =
        ⟨dp, idx, ⟨k.co, k.handleLeft, k.co, k.interpolation⟩ :: rest⟩) := by
  constructor
  · simp only [remove_easing_on_start_frame, mapM_removeEasing p.curves h,
      Option.bind_some]
    rfl
  · intro dp idx k rest
    rfl

/-- Witness for C8: a particle with one two-point location curve whose first
point has a nontrivial right handle, and one material curve. -/
theorem c8_witness :
    remove_easing_on_start_frame
      ⟨⟨0, 0, 0⟩,
       [⟨"location", 0,
         [⟨(120, 2), (110, 2), (130, 3), Interp.bezier⟩,
          ⟨(220, 5), (210, 4), (230, 6), Interp.bezier⟩]⟩,
        ⟨"[\"Orb Visibility\"]", 0, []⟩]⟩ =
      some
        ⟨⟨0, 0, 0⟩,
         [⟨"location", 0,
           [⟨(120, 2), (110, 2), (120, 2), Interp.bezier⟩,
            ⟨(220, 5), (210, 4), (230, 6), Interp.bezier⟩]⟩,
          ⟨"[\"Orb Visibility\"]", 0, []⟩]⟩ := by
  have h := (c8_collapse_start_handle
    ⟨⟨0, 0, 0⟩,
     [⟨"location", 0,
       [⟨(120, 2), (110, 2), (130, 3), Interp.bezier⟩,
        ⟨(220, 5), (210, 4), (230, 6), Interp.bezier⟩]⟩,
      ⟨"[\"Orb Visibility\"]", 0, []⟩]⟩
    (by intro c hc hdp; fin_cases hc <;> simp_all)).1
  rw [h]
  rfl


/-- Claim C2: for every sample, letting θ be its angular position in degrees,
the replicator of `GenerateAnimatedHaloRing.py` produces exactly one mirrored
duplicate when `0 < θ < 180` — rotated by the XYZ Euler triple
`(180°, 0, −θ)`, i.e. 180° about the perpendicular x axis and placed at the
angle `180 + (180 − θ)` — and produces none at exactly 0° and exactly 180°;
the `Halo3LoadingScreen.py` replicator does the same for every sample it
processes (`RING_SAMPLES = 3`). -/
theorem c2_mirror_rule :
    (∀ sample : ℕ,
      (360 / 4096 * (sample : ℚ) = 0 → gahrMirrorEuler sample = none) ∧
      (360 / 4096 * (sample : ℚ) = 180 → gahrMirrorEuler sample = none) ∧
      (0 < 360 / 4096 * (sample : ℚ) → 360 / 4096 * (sample : ℚ) < 180 →
        gahrMirrorEuler sample =
          some (180, 0, -(360 / 4096 * (sample : ℚ))) ∧
        ∀ v : Vec3 ℝ,
          eulerXYZDegRot 180 0 (-(360 / 4096 * (sample : ℚ))) v =
            rotZ (radOfDeg (180 + (180 - 360 / 4096 * (sample : ℚ))))
              (rotX (radOfDeg 180) v))) ∧
    (∀ sample : ℕ, sample < 3 →
      (360 / 256 * (sample : ℚ) = 0 → halo3MirrorEuler sample = none) ∧
      (0 < 360 / 256 * (sample : ℚ) → 360 / 256 * (sample : ℚ) < 180 →
        halo3MirrorEuler sample =
          some (180, 0, -(360 / 256 * (sample : ℚ))) ∧
        ∀ v : Vec3 ℝ,
          eulerXYZDegRot 180 0 (-(360 / 256 * (sample : ℚ))) v =
            rotZ (radOfDeg (180 + (180 - 360 / 256 * (sample : ℚ))))
              (rotX (radOfDeg 180) v))) := by
  constructor
  · intro s
    refine ⟨?_, ?_, ?_⟩
    · intro h0
      have hs : s = 0 := by
        have hq : (s : ℚ) = 0 := by
          rcases mul_eq_zero.mp h0 with h | h
          · norm_num at h
          · exact h
        exact_mod_cast hq
      subst hs
      rfl
    · intro h180
      have hs : (s : ℚ) = 4096 / 2 := by linear_combination (4096 / 360 : ℚ) * h180
      have hs0 : s ≠ 0 := by
        intro h
        subst h
        norm_num at hs
      simp [gahrMirrorEuler, hs0, hs]
    · intro hpos hlt
      have hs0 : s ≠ 0 := by
        intro h
        subst h
        norm_num at hpos
      have hs2048 : ¬ ((s : ℚ) = 4096 / 2) := by
        intro h
        rw [h] at hlt
        norm_num at hlt
      exact ⟨by simp [gahrMirrorEuler, hs0, hs2048],
        fun v => mirror_placement _ v⟩
  · intro s hs
    interval_cases s
    · exact ⟨fun _ => rfl, fun hpos _ => absurd hpos (by norm_num)⟩
    · refine ⟨fun h0 => absurd h0 (by norm_num), fun _ _ => ⟨?_, ?_⟩⟩
      · norm_num [halo3MirrorEuler]
      · exact fun v => mirror_placement _ v
    · refine ⟨fun h0 => absurd h0 (by norm_num), fun _ _ => ⟨?_, ?_⟩⟩
      · norm_num [halo3MirrorEuler]
      · exact fun v => mirror_placement _ v

/-- Witness for C2 at sample 1 of `GenerateAnimatedHaloRing.py` and the unit
x vector. -/
theorem c2_witness :
    gahrMirrorEuler 1 = some (180, 0, -(360 / 4096 * ((1 : ℕ) : ℚ))) ∧
    eulerXYZDegRot 180 0 (-(360 / 4096 * ((1 : ℕ) : ℚ))) ⟨1, 0, 0⟩ =
      rotZ (radOfDeg (180 + (180 - 360 / 4096 * ((1 : ℕ) : ℚ))))
        (rotX (radOfDeg 180) ⟨1, 0, 0⟩) :=
  ⟨((c2_mirror_rule.1 1).2.2 (by norm_num) (by norm_num)).1,
   ((c2_mirror_rule.1 1).2.2 (by norm_num) (by norm_num)).2 ⟨1, 0, 0⟩⟩

/-- Claim C10: for every pivot rotation mode and every XYZ Euler triple,
`rotate_slice_by_angle` stores a rotation in the pivot's native
representation denoting the same orientation as the triple.  The
quaternion-mode and axis-angle-mode conversions are proved outright; for an
Euler-mode pivot of a different order the stored value is `mathutils`'
`to_euler` result, taken here as a parameter `t` under its library contract
(the hypothesis that `t` denotes, in the pivot's order, the rotation of the
converted quaternion). -/
theorem c10_rotation_modes (mode : RotMode) (e t : Vec3 ℝ)
    (hT : ∀ o : EulerOrder, mode = RotMode.euler o → o ≠ EulerOrder.XYZ →
      ∀ v : Vec3 ℝ, eulerRot o t v = rotQ (eulerToQuatXYZ e) v) :
    ∀ v : Vec3 ℝ, denoteStored (rotate_slice_by_angle mode e t) v =
      eulerRot EulerOrder.XYZ e v := by
  intro v
  cases mode with
  | quaternion =>
    simpa [rotate_slice_by_angle, denoteStored] using rotQ_eulerToQuatXYZ e v
  | axisAngle =>
    simp only [rotate_slice_by_angle, denoteStored]
    rw [rodrigues_quatAngle_quatAxis _ (qnormSq_eulerToQuatXYZ e),
      rotQ_eulerToQuatXYZ]
  | euler o =>
    by_cases ho : o = EulerOrder.XYZ
    · subst ho
      simp [rotate_slice_by_angle, denoteStored]
    · simp only [rotate_slice_by_angle, denoteStored, if_neg ho]
      rw [hT o rfl ho v, rotQ_eulerToQuatXYZ]

/-- Witness for C10: a pivot in ZYX Euler mode, the zero Euler triple (whose
`to_euler` conversion is the zero triple, discharging the library-contract
hypothesis concretely), applied to the vector `(1, 2, 3)`. -/
theorem c10_witness :
    denoteStored (rotate_slice_by_angle (RotMode.euler EulerOrder.ZYX)
      ⟨0, 0, 0⟩ ⟨0, 0, 0⟩) ⟨1, 2, 3⟩ =
      eulerRot EulerOrder.XYZ ⟨0, 0, 0⟩ ⟨1, 2, 3⟩ :=
  c10_rotation_modes (RotMode.euler EulerOrder.ZYX) ⟨0, 0, 0⟩ ⟨0, 0, 0⟩
    (by
      intro o ho hne v
      obtain rfl : EulerOrder.ZYX = o := by injection ho
      rw [rotQ_eulerToQuatXYZ]
      simp [eulerRot, rotX_zero, rotY_zero, rotZ_zero])
    ⟨1, 2, 3⟩
